import Mathlib

/-!
Verification of the i18n `generate` task (merge + compile of translation
catalogs).  The development shallowly embeds `i18n/generate.py`:

* a parsed `.po` catalog is a `PoFile` (header fuzzy marker + entries, each
  entry carrying occurrences `(filename, optional line number)` and string
  flags);
* the filesystem is an association list from `(directory, filename)` paths
  to parsed catalogs;
* the two external tools are abstracted: the catalog-merge tool (`msgcat`)
  is a parameter `tool : List PoFile → Option PoFile` (`none` models a
  non-zero exit), and the compile tool is recorded as an event;
* exceptions are modelled by an `Option Err` result threaded together with
  the state; an event trace records external-tool invocations and the
  orchestrator calls, so that temporal claims are statable.
-/

/-- One entry of a catalog: source-occurrence references
`(filename, optional line number)`, string flags, and the text pair. -/
structure PoEntry where
  occurrences : List (String × Option Nat)
  flags : List String
  msgid : String
  msgstr : String
deriving DecidableEq, Repr

/-- A parsed catalog: the header metadata fuzzy marker plus the entries
(`polib.pofile` exposes exactly these to `clean_pofile`). -/
structure PoFile where
  metadata_is_fuzzy : Bool
  entries : List PoEntry
deriving DecidableEq, Repr

/-- The empty catalog, used as a default when reading a file that was just
validated to exist. -/
def emptyPo : PoFile := { metadata_is_fuzzy := false, entries := [] }

/-- A filesystem path, as produced by `directory.joinpath(name)`: the
directory part is opaque, file names contain no separators (per the
`validate_files` docstring). -/
structure FPath where
  dir : String
  name : String
deriving DecidableEq, Repr

/-- The filesystem: an association list from paths to parsed catalogs. -/
abbrev FS := List (FPath × PoFile)

def fsLookup : FS → FPath → Option PoFile
  | [], _ => none
  | (k, v) :: rest, p => if k = p then some v else fsLookup rest p

def fsErase (fs : FS) (p : FPath) : FS :=
  fs.filter (fun kv => decide (kv.1 ≠ p))

def fsInsert (fs : FS) (p : FPath) (v : PoFile) : FS :=
  (p, v) :: fsErase fs p

/-- `os.rename src dst`: moves the file at `src` to `dst`, overwriting any
prior file at `dst`.  (If `src` is absent the real call errors; the merge
code only renames a file it has just written.) -/
def fsRename (fs : FS) (src dst : FPath) : FS :=
  match fsLookup fs src with
  | none => fs
  | some v => fsInsert (fsErase fs src) dst v

/-- Errors raised by the embedded code: the `validate_files` exception
(identifying the missing path, as in the message
`I18N: Cannot generate because file not found: <path>`) and a non-zero
exit of an external command raised by `execute`. -/
inductive Err where
  | fileNotFound (p : FPath)
  | toolFailure (cmd : String)
deriving DecidableEq, Repr

/-- Observable events of a run: an orchestrator call `merge_files(locale,
fail_if_missing)`, an invocation of the external merge tool (`msgcat`) in a
locale directory, and an invocation of the external compile tool
(`django-admin.py compilemessages -v<verbosity>`) in the base directory. -/
inductive Event where
  | mergeFilesCall (locale : String) (fail_if_missing : Bool)
  | toolMerge (dir : String) (sources : List String)
  | compile (dir : String) (verbosity : Nat)
deriving DecidableEq, Repr

def Event.isCompile : Event → Bool
  | .compile _ _ => true
  | _ => false

/-- The run state: the filesystem plus the trace of events so far. -/
structure St where
  fs : FS
  events : List Event
deriving DecidableEq, Repr

/-- The configuration contract (`config.CONFIGURATION` plus
`config.BASE_DIR`); `generate_merge` is an ordered mapping
target-filename ↦ ordered source filenames. -/
structure Configuration where
  get_messages_dir : String → String
  generate_merge : List (String × List String)
  translated_locales : List String
  dummy_locales : List String
  ltr_langs : List String
  rtl_langs : List String
  BASE_DIR : String

/-- The external catalog-merge tool, a black box: combines the parsed
source catalogs into one, or fails (`none` models a non-zero exit). -/
abbrev MergeTool := List PoFile → Option PoFile

/-- The parsed command-line arguments of the `generate` command. -/
structure Args where
  strict : Bool
  ltr : Bool
  rtl : Bool
  verbose : Nat
deriving DecidableEq, Repr

/-- The per-entry part of `clean_pofile`: line numbers stripped from the
occurrences, flags ending in `-format` removed. -/
def clean_entry (e : PoEntry) : PoEntry :=
  { e with
    occurrences := e.occurrences.map (fun oc => (oc.1, none)),
    flags := e.flags.filter (fun f => !(f.endsWith "-format")) }

/-- `clean_pofile` (the content transform of the in-place file update):
clear the metadata fuzzy marker set by `msgcat`, and clean every entry. -/
def clean_pofile (po : PoFile) : PoFile :=
  { metadata_is_fuzzy := false, entries := po.entries.map clean_entry }

/-- `validate_files(directory, files_to_merge)`: checks the files in list
order and raises, at the first missing one, an exception naming
`directory.joinpath(path)`; returns silently when all exist. -/
def validate_files (fs : FS) (directory : String) : List String → Option Err
  | [] => none
  | f :: rest =>
    if (fsLookup fs ⟨directory, f⟩).isSome then validate_files fs directory rest
    else some (Err.fileNotFound ⟨directory, f⟩)

/-- `merge(locale, target, sources, fail_if_missing)`: validate the
sources in the locale directory (silently skipping on failure unless
`fail_if_missing`), run `msgcat -o merged.po <sources>` in that directory,
clean the merged file, and rename `merged.po` to `target`. -/
def merge (cfg : Configuration) (tool : MergeTool) (locale target : String)
    (sources : List String) (fail_if_missing : Bool) (st : St) : St × Option Err :=
  let locale_directory := cfg.get_messages_dir locale
  match validate_files st.fs locale_directory sources with
  | some e => if fail_if_missing then (st, some e) else (st, none)
  | none =>
    let inputs := sources.map (fun s => (fsLookup st.fs ⟨locale_directory, s⟩).getD emptyPo)
    match tool inputs with
    | none =>
      ({ st with events := st.events ++ [Event.toolMerge locale_directory sources] },
       some (Err.toolFailure "msgcat"))
    | some merged =>
      let st1 : St :=
        { fs := fsInsert st.fs ⟨locale_directory, "merged.po"⟩ merged,
          events := st.events ++ [Event.toolMerge locale_directory sources] }
      let cleaned := clean_pofile ((fsLookup st1.fs ⟨locale_directory, "merged.po"⟩).getD emptyPo)
      let st2 : St := { st1 with fs := fsInsert st1.fs ⟨locale_directory, "merged.po"⟩ cleaned }
      let st3 : St :=
        { st2 with fs := fsRename st2.fs ⟨locale_directory, "merged.po"⟩ ⟨locale_directory, target⟩ }
      (st3, none)

/-- The loop body of `merge_files`: iterate the configured merge groups in
order, aborting the remaining groups at the first failure. -/
def mergeGroups (cfg : Configuration) (tool : MergeTool) (locale : String)
    (fail_if_missing : Bool) : List (String × List String) → St → St × Option Err
  | [], st => (st, none)
  | g :: rest, st =>
    match merge cfg tool locale g.1 g.2 fail_if_missing st with
    | (st1, none) => mergeGroups cfg tool locale fail_if_missing rest st1
    | (st1, some e) => (st1, some e)

/-- `merge_files(locale, fail_if_missing)`: record the orchestrator call
and merge every configured `(target, sources)` group for the locale. -/
def merge_files (cfg : Configuration) (tool : MergeTool) (locale : String)
    (fail_if_missing : Bool) (st : St) : St × Option Err :=
  let st0 : St := { st with events := st.events ++ [Event.mergeFilesCall locale fail_if_missing] }
  mergeGroups cfg tool locale fail_if_missing cfg.generate_merge st0

/-- The locale loops of `Generate.run`: process the locales in order,
aborting at the first fatal failure. -/
def runLocales (cfg : Configuration) (tool : MergeTool) (fail_if_missing : Bool) :
    List String → St → St × Option Err
  | [], st => (st, none)
  | l :: rest, st =>
    match merge_files cfg tool l fail_if_missing st with
    | (st1, none) => runLocales cfg tool fail_if_missing rest st1
    | (st1, some e) => (st1, some e)

/-- The locale-subset resolution at the top of `Generate.run`:
`if args.ltr: ltr_langs elif args.rtl: rtl_langs else: translated_locales`. -/
def langsFor (cfg : Configuration) (args : Args) : List String :=
  if args.ltr then cfg.ltr_langs
  else if args.rtl then cfg.rtl_langs
  else cfg.translated_locales

/-- `Generate.run`: merge the selected subset with
`fail_if_missing = args.strict`, then the dummy locales with
`fail_if_missing = False`, then invoke the compile tool once in the base
directory. -/
def Generate.run (cfg : Configuration) (tool : MergeTool) (args : Args) (st : St) :
    St × Option Err :=
  match runLocales cfg tool args.strict (langsFor cfg args) st with
  | (st1, some e) => (st1, some e)
  | (st1, none) =>
    match runLocales cfg tool false cfg.dummy_locales st1 with
    | (st2, some e) => (st2, some e)
    | (st2, none) =>
      ({ st2 with events := st2.events ++ [Event.compile cfg.BASE_DIR args.verbose] }, none)

/-! ### Filesystem lemmas -/

theorem fsLookup_erase (fs : FS) (p q : FPath) :
    fsLookup (fsErase fs p) q = if p = q then none else fsLookup fs q := by
  induction fs with
  | nil => simp [fsErase, fsLookup]
  | cons kv rest ih =>
    rcases kv with ⟨k, v⟩
    by_cases hk : k = p
    · subst hk
      by_cases hq : k = q
      · subst hq
        simp [fsErase, List.filter_cons, fsLookup] at ih ⊢
        simpa using ih
      · simp [fsErase, List.filter_cons, fsLookup, hq] at ih ⊢
        simpa [hq] using ih
    · by_cases hq : k = q
      · subst hq
        have hpk : ¬ p = k := fun h => hk h.symm
        simp [fsErase, List.filter_cons, fsLookup, hk, hpk]
      · simp [fsErase, List.filter_cons, fsLookup, hk, hq] at ih ⊢
        exact ih

theorem fsLookup_insert (fs : FS) (p q : FPath) (v : PoFile) :
    fsLookup (fsInsert fs p v) q = if p = q then some v else fsLookup fs q := by
  by_cases h : p = q
  · simp [fsInsert, fsLookup, h]
  · simp [fsInsert, fsLookup, h, fsLookup_erase]

/-! ### Validator lemmas -/

theorem validate_files_eq_find (fs : FS) (dir : String) (files : List String) :
    validate_files fs dir files
      = (files.find? (fun f => (fsLookup fs ⟨dir, f⟩).isNone)).map
          (fun f => Err.fileNotFound ⟨dir, f⟩) := by
  induction files with
  | nil => rfl
  | cons f rest ih =>
    by_cases h : (fsLookup fs ⟨dir, f⟩).isSome
    · have h2 : (fsLookup fs ⟨dir, f⟩).isNone = false := by
        rcases hl : fsLookup fs ⟨dir, f⟩ with _ | v
        · rw [hl] at h; simp at h
        · simp
      simp [validate_files, h, List.find?, h2, ih]
    · have h2 : (fsLookup fs ⟨dir, f⟩).isNone = true := by
        rcases hl : fsLookup fs ⟨dir, f⟩ with _ | v
        · simp
        · rw [hl] at h; simp at h
      simp [validate_files, h, List.find?, h2]

theorem validate_files_none_iff (fs : FS) (dir : String) (files : List String) :
    validate_files fs dir files = none
      ↔ ∀ f ∈ files, (fsLookup fs ⟨dir, f⟩).isSome = true := by
  induction files with
  | nil => simp [validate_files]
  | cons f rest ih =>
    by_cases h : (fsLookup fs ⟨dir, f⟩).isSome
    · simp [validate_files, h, ih]
    · simp [validate_files, h]

/-! ### Normalizer lemmas -/

theorem clean_entry_idem (e : PoEntry) : clean_entry (clean_entry e) = clean_entry e := by
  simp [clean_entry, List.map_map, Function.comp, List.filter_filter]

/-! ### Claim theorems: the normalizer -/

/-- Claim C3: after normalization every entry's occurrence list holds the
same filenames in the same sequence with every line number replaced by
`none`, and no entry has a non-`none` line number. -/
theorem clean_pofile_occurrences (po : PoFile) :
    (clean_pofile po).entries.map (fun e => e.occurrences)
        = po.entries.map (fun e => e.occurrences.map (fun oc => (oc.1, (none : Option Nat))))
      ∧ (clean_pofile po).entries.all
          (fun e => e.occurrences.all (fun oc => oc.2.isNone)) = true := by
  constructor
  · simp [clean_pofile, List.map_map, Function.comp, clean_entry]
  · simp only [List.all_eq_true]
    intro e he
    simp only [clean_pofile, List.mem_map] at he
    obtain ⟨e0, _, rfl⟩ := he
    intro oc hoc
    simp only [clean_entry, List.mem_map] at hoc
    obtain ⟨oc0, _, rfl⟩ := hoc
    rfl

/-- Claim C4: after normalization no entry carries a flag ending in
`-format`, and the other flags are preserved unchanged, in order. -/
theorem clean_pofile_flags (po : PoFile) :
    (clean_pofile po).entries.map (fun e => e.flags)
        = po.entries.map (fun e => e.flags.filter (fun f => !(f.endsWith "-format")))
      ∧ (clean_pofile po).entries.all
          (fun e => e.flags.all (fun f => !(f.endsWith "-format"))) = true := by
  constructor
  · simp [clean_pofile, List.map_map, Function.comp, clean_entry]
  · simp only [List.all_eq_true]
    intro e he
    simp only [clean_pofile, List.mem_map] at he
    obtain ⟨e0, _, rfl⟩ := he
    intro f hf
    simp only [clean_entry, List.mem_filter] at hf
    exact hf.2

/-- Claim C5: normalization clears the header fuzzy marker, whether or not
it was set before. -/
theorem clean_pofile_fuzzy (po : PoFile) :
    (clean_pofile po).metadata_is_fuzzy = false := rfl

/-- Claim C10: normalization is idempotent: applying `clean_pofile` twice
yields the same catalog as applying it once. -/
theorem clean_pofile_idem (po : PoFile) :
    clean_pofile (clean_pofile po) = clean_pofile po := by
  simp only [clean_pofile, List.map_map]
  refine congrArg (fun l => PoFile.mk false l) ?_
  simp [Function.comp, clean_entry_idem]

/-! ### Claim theorems: the validator and the locale subset -/

/-- Claim C8: `validate_files` checks the filenames in list order and
returns, at the first missing file, an error naming that missing path
(the `find?` characterization: later files are not examined); it succeeds
exactly when every listed file exists in the directory.  It is a pure
function of the filesystem: no side effects. -/
theorem validate_files_fail_fast (fs : FS) (dir : String) (files : List String) :
    validate_files fs dir files
        = (files.find? (fun f => (fsLookup fs ⟨dir, f⟩).isNone)).map
            (fun f => Err.fileNotFound ⟨dir, f⟩)
      ∧ (validate_files fs dir files = none
          ↔ ∀ f ∈ files, (fsLookup fs ⟨dir, f⟩).isSome = true) :=
  ⟨validate_files_eq_find fs dir files, validate_files_none_iff fs dir files⟩

/-- Claim C9: when both `--ltr` and `--rtl` are set, the left-to-right
subset is selected, and the whole run behaves exactly as with `--ltr`
alone. -/
theorem ltr_beats_rtl (cfg : Configuration) (tool : MergeTool) (strict : Bool)
    (verbose : Nat) (st : St) :
    langsFor cfg ⟨strict, true, true, verbose⟩ = cfg.ltr_langs
      ∧ Generate.run cfg tool ⟨strict, true, true, verbose⟩ st
          = Generate.run cfg tool ⟨strict, true, false, verbose⟩ st :=
  ⟨rfl, rfl⟩

/-! ### Event-trace lemmas: every step only appends non-compile events -/

/-- `st1` extends `st` by appending events, none of which is a compile
invocation. -/
def evExtends (st st1 : St) : Prop :=
  ∃ tr, st1.events = st.events ++ tr ∧ ∀ e ∈ tr, e.isCompile = false

theorem evExtends_refl (st : St) : evExtends st st :=
  ⟨[], by simp, by simp⟩

theorem evExtends_trans {s1 s2 s3 : St} (h1 : evExtends s1 s2) (h2 : evExtends s2 s3) :
    evExtends s1 s3 := by
  obtain ⟨t1, e1, c1⟩ := h1
  obtain ⟨t2, e2, c2⟩ := h2
  refine ⟨t1 ++ t2, by rw [e2, e1, List.append_assoc], ?_⟩
  intro e he
  rcases List.mem_append.mp he with h | h
  · exact c1 e h
  · exact c2 e h

theorem evExtends_mem {s1 s2 : St} (h : evExtends s1 s2) {e : Event}
    (he : e ∈ s1.events) : e ∈ s2.events := by
  obtain ⟨t, het, _⟩ := h
  rw [het]
  exact List.mem_append_left _ he

theorem merge_evExtends (cfg : Configuration) (tool : MergeTool) (locale target : String)
    (sources : List String) (fim : Bool) (st : St) :
    evExtends st (merge cfg tool locale target sources fim st).1 := by
  simp only [merge]
  split
  · split
    · exact evExtends_refl st
    · exact evExtends_refl st
  · split
    · exact ⟨[Event.toolMerge (cfg.get_messages_dir locale) sources], rfl, by
        intro e he
        simp only [List.mem_singleton] at he
        subst he
        rfl⟩
    · exact ⟨[Event.toolMerge (cfg.get_messages_dir locale) sources], rfl, by
        intro e he
        simp only [List.mem_singleton] at he
        subst he
        rfl⟩

theorem mergeGroups_evExtends (cfg : Configuration) (tool : MergeTool) (locale : String)
    (fim : Bool) : ∀ (gs : List (String × List String)) (st : St),
    evExtends st (mergeGroups cfg tool locale fim gs st).1
  | [], st => evExtends_refl st
  | g :: rest, st => by
    unfold mergeGroups
    rcases hm : merge cfg tool locale g.1 g.2 fim st with ⟨st1, res⟩
    have h1 : evExtends st st1 := by
      have h := merge_evExtends cfg tool locale g.1 g.2 fim st
      rw [hm] at h
      exact h
    cases res with
    | none => exact evExtends_trans h1 (mergeGroups_evExtends cfg tool locale fim rest st1)
    | some e => exact h1

theorem merge_files_evExtends (cfg : Configuration) (tool : MergeTool) (locale : String)
    (fim : Bool) (st : St) : evExtends st (merge_files cfg tool locale fim st).1 := by
  have h0 : evExtends st { st with events := st.events ++ [Event.mergeFilesCall locale fim] } :=
    ⟨[Event.mergeFilesCall locale fim], rfl, by
      intro e he
      simp only [List.mem_singleton] at he
      subst he
      rfl⟩
  exact evExtends_trans h0 (mergeGroups_evExtends cfg tool locale fim cfg.generate_merge _)

theorem merge_files_call_mem (cfg : Configuration) (tool : MergeTool) (locale : String)
    (fim : Bool) (st : St) :
    Event.mergeFilesCall locale fim ∈ (merge_files cfg tool locale fim st).1.events := by
  have h := mergeGroups_evExtends cfg tool locale fim cfg.generate_merge
    { st with events := st.events ++ [Event.mergeFilesCall locale fim] }
  exact evExtends_mem h (by simp)

theorem runLocales_evExtends (cfg : Configuration) (tool : MergeTool) (fim : Bool) :
    ∀ (ls : List String) (st : St), evExtends st (runLocales cfg tool fim ls st).1
  | [], st => evExtends_refl st
  | l :: rest, st => by
    unfold runLocales
    rcases hm : merge_files cfg tool l fim st with ⟨st1, res⟩
    have h1 : evExtends st st1 := by
      have h := merge_files_evExtends cfg tool l fim st
      rw [hm] at h
      exact h
    cases res with
    | none => exact evExtends_trans h1 (runLocales_evExtends cfg tool fim rest st1)
    | some e => exact h1

theorem runLocales_success_calls (cfg : Configuration) (tool : MergeTool) (fim : Bool) :
    ∀ (ls : List String) (st : St),
    (runLocales cfg tool fim ls st).2 = none →
    ∀ l ∈ ls, Event.mergeFilesCall l fim ∈ (runLocales cfg tool fim ls st).1.events
  | [], _, _, l, hl => by simp at hl
  | l0 :: rest, st, h, l, hl => by
    unfold runLocales at h ⊢
    rcases hm : merge_files cfg tool l0 fim st with ⟨st1, res⟩
    rw [hm] at h
    cases res with
    | some e => exact Option.noConfusion h
    | none =>
      rcases List.mem_cons.mp hl with rfl | hl2
      · have hc : Event.mergeFilesCall l fim ∈ st1.events := by
          have h2 := merge_files_call_mem cfg tool l fim st
          rw [hm] at h2
          exact h2
        exact evExtends_mem (runLocales_evExtends cfg tool fim rest st1) hc
      · exact runLocales_success_calls cfg tool fim rest st1 h l hl2

/-- The three possible shapes of a `Generate.run` outcome: fatal failure
in the selected-subset loop, fatal failure in the dummy loop, or success
followed by the single compile invocation. -/
theorem run_cases (cfg : Configuration) (tool : MergeTool) (args : Args) (st : St) :
    (∃ st1 e, runLocales cfg tool args.strict (langsFor cfg args) st = (st1, some e)
        ∧ Generate.run cfg tool args st = (st1, some e))
    ∨ (∃ st1 st2 e, runLocales cfg tool args.strict (langsFor cfg args) st = (st1, none)
        ∧ runLocales cfg tool false cfg.dummy_locales st1 = (st2, some e)
        ∧ Generate.run cfg tool args st = (st2, some e))
    ∨ (∃ st1 st2, runLocales cfg tool args.strict (langsFor cfg args) st = (st1, none)
        ∧ runLocales cfg tool false cfg.dummy_locales st1 = (st2, none)
        ∧ Generate.run cfg tool args st
            = ({ st2 with events := st2.events ++ [Event.compile cfg.BASE_DIR args.verbose] },
               none)) := by
  rcases h1 : runLocales cfg tool args.strict (langsFor cfg args) st with ⟨st1, r1⟩
  cases r1 with
  | some e => exact Or.inl ⟨st1, e, rfl, by simp only [Generate.run, h1]⟩
  | none =>
    rcases h2 : runLocales cfg tool false cfg.dummy_locales st1 with ⟨st2, r2⟩
    cases r2 with
    | some e =>
      exact Or.inr (Or.inl ⟨st1, st2, e, rfl, h2, by simp only [Generate.run, h1, h2]⟩)
    | none =>
      exact Or.inr (Or.inr ⟨st1, st2, rfl, h2, by simp only [Generate.run, h1, h2]⟩)

/-- Case analysis of `Generate.run`: on success the trace gains a block of
non-compile events followed by exactly one compile event; on a fatal
failure it gains only non-compile events. -/
theorem run_events (cfg : Configuration) (tool : MergeTool) (args : Args) (st : St) :
    ((Generate.run cfg tool args st).2 = none
      ∧ ∃ tr, (Generate.run cfg tool args st).1.events
            = st.events ++ (tr ++ [Event.compile cfg.BASE_DIR args.verbose])
          ∧ ∀ e ∈ tr, e.isCompile = false)
    ∨ ((Generate.run cfg tool args st).2 ≠ none
      ∧ ∃ tr, (Generate.run cfg tool args st).1.events = st.events ++ tr
          ∧ ∀ e ∈ tr, e.isCompile = false) := by
  rcases run_cases cfg tool args st with ⟨st1, e, h1, hr⟩ | ⟨st1, st2, e, h1, h2, hr⟩
    | ⟨st1, st2, h1, h2, hr⟩
  · have hx1 : evExtends st st1 := by
      have h := runLocales_evExtends cfg tool args.strict (langsFor cfg args) st
      rw [h1] at h
      exact h
    obtain ⟨tr, htr, hc⟩ := hx1
    rw [hr]
    exact Or.inr ⟨by simp, tr, htr, hc⟩
  · have hx1 : evExtends st st1 := by
      have h := runLocales_evExtends cfg tool args.strict (langsFor cfg args) st
      rw [h1] at h
      exact h
    have hx2 : evExtends st1 st2 := by
      have h := runLocales_evExtends cfg tool false cfg.dummy_locales st1
      rw [h2] at h
      exact h
    obtain ⟨tr, htr, hc⟩ := evExtends_trans hx1 hx2
    rw [hr]
    exact Or.inr ⟨by simp, tr, htr, hc⟩
  · have hx1 : evExtends st st1 := by
      have h := runLocales_evExtends cfg tool args.strict (langsFor cfg args) st
      rw [h1] at h
      exact h
    have hx2 : evExtends st1 st2 := by
      have h := runLocales_evExtends cfg tool false cfg.dummy_locales st1
      rw [h2] at h
      exact h
    obtain ⟨tr, htr, hc⟩ := evExtends_trans hx1 hx2
    rw [hr]
    refine Or.inl ⟨rfl, tr, ?_, hc⟩
    show st2.events ++ [Event.compile cfg.BASE_DIR args.verbose]
        = st.events ++ (tr ++ [Event.compile cfg.BASE_DIR args.verbose])
    rw [htr, List.append_assoc]

/-! ### Claim theorems: the top-level run -/

/-- Claim C1: a top-level run invokes the external compile tool exactly
once, as the last event after every merge for the selected and dummy
locales; if any merge step fails fatally, the run aborts and no compile
invocation happens. -/
theorem run_compiles_once (cfg : Configuration) (tool : MergeTool) (args : Args) (st : St) :
    (((Generate.run cfg tool args st).1.events.drop st.events.length).countP Event.isCompile
        = if (Generate.run cfg tool args st).2 = none then 1 else 0)
    ∧ ((Generate.run cfg tool args st).2 = none →
        ((Generate.run cfg tool args st).1.events.drop st.events.length).getLast?
          = some (Event.compile cfg.BASE_DIR args.verbose)) := by
  rcases run_events cfg tool args st with ⟨hs, tr, htr, hc⟩ | ⟨hf, tr, htr, hc⟩
  · have hdrop : (Generate.run cfg tool args st).1.events.drop st.events.length
        = tr ++ [Event.compile cfg.BASE_DIR args.verbose] := by
      rw [htr, List.drop_left]
    have hzero : tr.countP Event.isCompile = 0 := by
      rw [List.countP_eq_zero]
      intro a ha
      simp [hc a ha]
    constructor
    · rw [hdrop, List.countP_append, hzero, if_pos hs]
      simp [List.countP_cons, Event.isCompile]
    · intro _
      rw [hdrop, List.getLast?_concat]
  · have hdrop : (Generate.run cfg tool args st).1.events.drop st.events.length = tr := by
      rw [htr, List.drop_left]
    have hzero : tr.countP Event.isCompile = 0 := by
      rw [List.countP_eq_zero]
      intro a ha
      simp [hc a ha]
    constructor
    · rw [hdrop, hzero, if_neg hf]
    · intro h
      exact absurd h hf

/-- Claim C7: in a top-level run that completes, every configured dummy
locale is merged with `fail_if_missing = false` — whatever the `--strict`
flag and the selected subset — while every locale of the selected subset
is merged with `fail_if_missing = args.strict`. -/
theorem run_dummy_best_effort (cfg : Configuration) (tool : MergeTool) (args : Args)
    (st : St) (h : (Generate.run cfg tool args st).2 = none) :
    (∀ l ∈ cfg.dummy_locales,
        Event.mergeFilesCall l false ∈ (Generate.run cfg tool args st).1.events)
    ∧ (∀ l ∈ langsFor cfg args,
        Event.mergeFilesCall l args.strict ∈ (Generate.run cfg tool args st).1.events) := by
  rcases run_cases cfg tool args st with ⟨st1, e, h1, hr⟩ | ⟨st1, st2, e, h1, h2, hr⟩
    | ⟨st1, st2, h1, h2, hr⟩
  · rw [hr] at h
    exact Option.noConfusion h
  · rw [hr] at h
    exact Option.noConfusion h
  · rw [hr]
    constructor
    · intro l hl
      have hc := runLocales_success_calls cfg tool false cfg.dummy_locales st1
        (by rw [h2]) l hl
      rw [h2] at hc
      exact List.mem_append_left _ hc
    · intro l hl
      have hcall := runLocales_success_calls cfg tool args.strict (langsFor cfg args) st
        (by rw [h1]) l hl
      rw [h1] at hcall
      have hx2 : evExtends st1 st2 := by
        have hh := runLocales_evExtends cfg tool false cfg.dummy_locales st1
        rw [h2] at hh
        exact hh
      exact List.mem_append_left _ (evExtends_mem hx2 hcall)

/-! ### Claim theorems: the locale-merge orchestrator -/

/-- Claim C2: when at least one source file is missing from the locale
directory, `merge` leaves the whole state untouched (no write to the
target, no merge-tool invocation, no normalization, no rename), failing
when `fail_if_missing` is true and returning silently when it is false. -/
theorem merge_missing_source (cfg : Configuration) (tool : MergeTool)
    (locale target : String) (sources : List String) (fim : Bool) (st : St)
    (h : ∃ s ∈ sources, fsLookup st.fs ⟨cfg.get_messages_dir locale, s⟩ = none) :
    (merge cfg tool locale target sources fim st).1 = st
    ∧ ((merge cfg tool locale target sources fim st).2 = none ↔ fim = false) := by
  obtain ⟨s, hs, hnone⟩ := h
  rcases hv : validate_files st.fs (cfg.get_messages_dir locale) sources with _ | e
  · exfalso
    have hall := (validate_files_none_iff st.fs (cfg.get_messages_dir locale) sources).mp hv
    have hsome := hall s hs
    rw [hnone] at hsome
    simp at hsome
  · simp only [merge, hv]
    cases fim
    · simp
    · simp

/-- Claim C6 (amended): when every source exists in the locale directory,
the merge tool succeeds, and the target is not named `merged.po`, the
merge succeeds, the target file holds the normalized merge result of the
ordered sources, and no `merged.po` file remains in the directory. -/
theorem merge_success (cfg : Configuration) (tool : MergeTool) (locale target : String)
    (sources : List String) (fim : Bool) (st : St) (merged : PoFile)
    (hval : validate_files st.fs (cfg.get_messages_dir locale) sources = none)
    (htool : tool (sources.map
        (fun s => (fsLookup st.fs ⟨cfg.get_messages_dir locale, s⟩).getD emptyPo))
      = some merged)
    (htgt : target ≠ "merged.po") :
    (merge cfg tool locale target sources fim st).2 = none
    ∧ fsLookup (merge cfg tool locale target sources fim st).1.fs
        ⟨cfg.get_messages_dir locale, target⟩ = some (clean_pofile merged)
    ∧ fsLookup (merge cfg tool locale target sources fim st).1.fs
        ⟨cfg.get_messages_dir locale, "merged.po"⟩ = none := by
  simp only [merge, hval, htool]
  refine ⟨trivial, ?_, ?_⟩
  · simp [fsRename, fsLookup_insert, fsLookup_erase, htgt, Ne.symm htgt]
  · simp [fsRename, fsLookup_insert, fsLookup_erase, htgt, Ne.symm htgt]

/-! ### Concrete witness data -/

/-- A sample source catalog: one entry flagged `python-format` with
occurrence `(source.py, 42)`, and the header fuzzy marker set. -/
def poW : PoFile :=
  { metadata_is_fuzzy := true,
    entries := [{ occurrences := [("source.py", some 42)], flags := ["python-format"],
                  msgid := "Hello", msgstr := "Bonjour" }] }

/-- A sample configuration: one translated locale `fr`, one dummy locale
`eo`, one merge group `django.po ↦ [django-partial.po]`. -/
def cfgW : Configuration :=
  { get_messages_dir := fun locale => "conf/locale/" ++ locale,
    generate_merge := [("django.po", ["django-partial.po"])],
    translated_locales := ["fr"],
    dummy_locales := ["eo"],
    ltr_langs := ["fr"],
    rtl_langs := [],
    BASE_DIR := "edx-platform" }

/-- A sample merge tool: concatenates the entries of the inputs and marks
the header fuzzy (as `msgcat` does). -/
def toolW : MergeTool := fun pos =>
  some { metadata_is_fuzzy := true, entries := (pos.map PoFile.entries).flatten }

/-- A sample starting state: `fr`'s directory holds `django-partial.po`;
`eo`'s directory is empty. -/
def stW : St := { fs := [(⟨"conf/locale/fr", "django-partial.po"⟩, poW)], events := [] }

def argsW : Args := { strict := true, ltr := false, rtl := false, verbose := 0 }

/-- The output of `toolW` on the single source catalog of `stW`. -/
def mergedW : PoFile := { metadata_is_fuzzy := true, entries := poW.entries ++ [] }

/-- Claim C1 witness: on the sample run the compile invocation is the last
event of the trace. -/
theorem run_compiles_once_witness :
    ((Generate.run cfgW toolW argsW stW).1.events.drop stW.events.length).getLast?
      = some (Event.compile cfgW.BASE_DIR argsW.verbose) :=
  (run_compiles_once cfgW toolW argsW stW).2 (by decide)

/-- Claim C7 witness: the dummy locale `eo` of the sample run is merged
with `fail_if_missing = false` although `--strict` is set. -/
theorem run_dummy_best_effort_witness :
    Event.mergeFilesCall "eo" false ∈ (Generate.run cfgW toolW argsW stW).1.events :=
  (run_dummy_best_effort cfgW toolW argsW stW (by decide)).1 "eo" (by decide)

/-- Claim C2 witness: merging locale `de` (whose directory holds no
files) with `fail_if_missing = true` fails and leaves the state
untouched. -/
theorem merge_missing_source_witness :
    (merge cfgW toolW "de" "django.po" ["django-partial.po"] true stW).1 = stW
      ∧ ((merge cfgW toolW "de" "django.po" ["django-partial.po"] true stW).2 = none
          ↔ true = false) :=
  merge_missing_source cfgW toolW "de" "django.po" ["django-partial.po"] true stW
    ⟨"django-partial.po", by decide, by decide⟩

/-- Claim C6 counterexample: with `target = "merged.po"` the merge
succeeds (all sources present) yet a file named `merged.po` does remain in
the locale directory, so the claim as stated fails. -/
theorem merge_success_counterexample :
    (merge cfgW toolW "fr" "merged.po" ["django-partial.po"] true stW).2 = none
      ∧ ¬ fsLookup (merge cfgW toolW "fr" "merged.po" ["django-partial.po"] true stW).1.fs
            ⟨"conf/locale/fr", "merged.po"⟩ = none := by
  decide

/-- Claim C6 witness: the sample merge of `fr` succeeds, writes the
normalized merge result to `django.po`, and leaves no `merged.po`. -/
theorem merge_success_witness :
    (merge cfgW toolW "fr" "django.po" ["django-partial.po"] true stW).2 = none
      ∧ fsLookup (merge cfgW toolW "fr" "django.po" ["django-partial.po"] true stW).1.fs
          ⟨cfgW.get_messages_dir "fr", "django.po"⟩ = some (clean_pofile mergedW)
      ∧ fsLookup (merge cfgW toolW "fr" "django.po" ["django-partial.po"] true stW).1.fs
          ⟨cfgW.get_messages_dir "fr", "merged.po"⟩ = none :=
  merge_success cfgW toolW "fr" "django.po" ["django-partial.po"] true stW mergedW
    (by decide) (by decide) (by decide)
